import Mathlib

/-!
Verification of the strfry relay sources: subscription ids
(src/src/Subscription.h), subscription state, the Prometheus metrics
registry (src/unnamed/part_000), the configuration defaults written by
src/deploy.sh, and the spec-described subscription cap and quadID
allocation. Byte strings are modelled as lists of naturals (byte values),
and 64-bit counters as naturals reduced modulo 2^64 where the code wraps.
-/

/-- Modelled from the spec: the constant MAX_SUBID_SIZE is defined outside
the given sources (only used by Subscription.h); the spec fixes
subscription ids to 1-64 bytes and src/test/SubIdTests.cpp checks exactly
the 64/65 length boundary. -/
def MAX_SUBID_SIZE : Nat := 64

/-- The badChar lambda of SubId::SubId. In C++ the comparisons are on
char; for byte values 0x80-0xFF a signed char is negative so c < 0x20
holds, hence as a function of the byte value a byte is bad iff it is
below 0x20, equals backslash (0x5C) or double quote (0x22), or is at
least 0x7F. -/
def badChar (c : Nat) : Bool :=
  decide (c < 0x20) || decide (c = 0x5C) || decide (c = 0x22) || decide (0x7F ≤ c)

/-- SubId stores a length byte followed by the id bytes (the buf array of
struct SubId; the uninitialised tail of the fixed-size C++ array is not
represented). -/
structure SubId where
  buf : List Nat
  deriving DecidableEq, Repr

/-- SubId::SubId(std::string_view val): throws (error) on empty or
oversize input or on any bad character, otherwise stores the length byte
and the payload. -/
def mkSubId (val : List Nat) : Except String SubId :=
  if val.length = 0 ∨ MAX_SUBID_SIZE < val.length then
    Except.error "invalid subscription id length"
  else if val.any badChar = true then
    Except.error "invalid character in subscription id"
  else
    Except.ok ⟨val.length :: val⟩

/-- Whether the constructor produced a SubId (did not throw). -/
def ctorOk (e : Except String SubId) : Bool :=
  match e with
  | Except.ok _ => true
  | Except.error _ => false

/-- SubId::sv(): reads the length byte and returns that many payload
bytes. -/
def SubId.sv (s : SubId) : List Nat :=
  (s.buf.drop 1).take (s.buf.headD 0)

/-- SubId::str(): a copy of sv(). -/
def SubId.str (s : SubId) : List Nat := s.sv

/-- SubId::operator==: compares the decoded strings o.sv() == sv(). -/
def SubId.beq (a b : SubId) : Bool := b.sv == a.sv

/-- Modelled from the spec: std::hash of SubId delegates to phmap
hashing of p.sv(), which lives outside the given sources; modelled as a
deterministic fold over the decoded bytes (any function of sv() alone). -/
def hashBytes (l : List Nat) : Nat :=
  l.foldl (fun h b => (h * 1099511628211 + b) % 2 ^ 64) 14695981039346656037

/-- std::hash of a SubId: a function of the decoded string only. -/
def subIdHash (s : SubId) : Nat := hashBytes s.sv

theorem badChar_eq_false_iff (c : Nat) :
    badChar c = false ↔ (0x20 ≤ c ∧ c ≤ 0x7E ∧ c ≠ 0x22 ∧ c ≠ 0x5C) := by
  simp only [badChar, Bool.or_eq_false_iff, decide_eq_false_iff_not, not_lt, not_le]
  omega

/-- Claim C1: the SubId constructor succeeds exactly on byte strings of
length 1 to 64 whose every byte lies in [0x20, 0x7E] and is neither the
double quote (0x22) nor the backslash (0x5C); on every other input it
throws and no SubId value is produced. -/
theorem subId_ctor_ok_iff (val : List Nat) :
    (ctorOk (mkSubId val) = true ↔
      (1 ≤ val.length ∧ val.length ≤ 64 ∧
        ∀ b ∈ val, 0x20 ≤ b ∧ b ≤ 0x7E ∧ b ≠ 0x22 ∧ b ≠ 0x5C)) ∧
    (ctorOk (mkSubId val) = false → ∀ s : SubId, mkSubId val ≠ Except.ok s) := by
  constructor
  · unfold mkSubId
    by_cases hlen : val.length = 0 ∨ MAX_SUBID_SIZE < val.length
    · rw [if_pos hlen]
      simp only [ctorOk, Bool.false_eq_true, false_iff, not_and]
      intro hp1 hp2
      simp only [MAX_SUBID_SIZE] at hlen
      omega
    · rw [if_neg hlen]
      push_neg at hlen
      simp only [MAX_SUBID_SIZE] at hlen
      by_cases hbad : val.any badChar = true
      · rw [if_pos hbad]
        simp only [ctorOk, Bool.false_eq_true, false_iff, not_and]
        intro _ _ hall
        rcases List.any_eq_true.mp hbad with ⟨b, hb, hbadb⟩
        have hfalse : badChar b = false := (badChar_eq_false_iff b).mpr (hall b hb)
        rw [hfalse] at hbadb
        exact Bool.false_ne_true hbadb
      · rw [if_neg hbad]
        simp only [ctorOk, true_iff]
        refine ⟨by omega, by omega, ?_⟩
        intro b hb
        refine (badChar_eq_false_iff b).mp ?_
        by_contra hc
        exact hbad (List.any_eq_true.mpr ⟨b, hb, by simpa using hc⟩)
  · intro h s hc
    rw [hc] at h
    simp [ctorOk] at h

/-- Claim C3: round-trip and extensionality for SubId: an accepted string
is returned verbatim by sv() and str(); operator== holds iff the decoded
strings are equal; equal SubIds hash equally. -/
theorem subId_roundtrip (val : List Nat) (s : SubId)
    (h : mkSubId val = Except.ok s) :
    s.sv = val ∧ s.str = val ∧
    (∀ t : SubId, (SubId.beq s t = true ↔ s.sv = t.sv)) ∧
    (∀ t : SubId, SubId.beq s t = true → subIdHash s = subIdHash t) := by
  have hbuf : s.buf = val.length :: val := by
    unfold mkSubId at h
    by_cases hlen : val.length = 0 ∨ MAX_SUBID_SIZE < val.length
    · rw [if_pos hlen] at h
      exact absurd h (by simp)
    · rw [if_neg hlen] at h
      by_cases hbad : val.any badChar = true
      · rw [if_pos hbad] at h
        exact absurd h (by simp)
      · rw [if_neg hbad] at h
        cases h
        rfl
  have hsv : s.sv = val := by
    simp [SubId.sv, hbuf, List.take_length]
  refine ⟨hsv, by simpa [SubId.str] using hsv, ?_, ?_⟩
  · intro t
    simp only [SubId.beq, beq_iff_eq]
    exact eq_comm
  · intro t ht
    have : t.sv = s.sv := by simpa [SubId.beq] using ht
    simp [subIdHash, this]

/-- Witness for subId_roundtrip at the one-byte id "a" (byte 97). -/
theorem subId_roundtrip_witness :
    mkSubId [97] = Except.ok (⟨[1, 97]⟩ : SubId) ∧
    (⟨[1, 97]⟩ : SubId).sv = [97] :=
  ⟨rfl, (subId_roundtrip [97] ⟨[1, 97]⟩ rfl).1⟩

/-- MAX_U64, the largest 64-bit value (initial latestEventId of a
Subscription). -/
def MAX_U64 : Nat := 2 ^ 64 - 1

/-- struct Subscription (src/src/Subscription.h). The NostrFilterGroup
field comes from filters.h, which is outside the given sources and
irrelevant to the claims; it is represented by a Unit placeholder. The
constructor sets the three parameters and leaves the default initialiser
latestEventId = MAX_U64 in place. -/
structure Subscription where
  connId : Nat
  subId : SubId
  filterGroup : Unit
  ipAddr : List Nat
  latestEventId : Nat

/-- Subscription::Subscription(connId_, subId_, filterGroup_, ipAddr_):
every field except latestEventId is a constructor parameter;
latestEventId keeps its member initialiser MAX_U64. -/
def mkSubscription (connId : Nat) (subId : SubId) (ipAddr : List Nat) :
    Subscription :=
  { connId := connId, subId := subId, filterGroup := (), ipAddr := ipAddr,
    latestEventId := MAX_U64 }

/-- Claim C2: a fresh Subscription has latestEventId = MAX_U64, so for
every 64-bit event quadID Q the ReqMonitor delivery precondition
latestQuadID < Q is false at creation. -/
theorem subscription_fresh_undeliverable (connId : Nat) (sid : SubId)
    (ip : List Nat) (Q : Nat) (hQ : Q < 2 ^ 64) :
    (mkSubscription connId sid ip).latestEventId = MAX_U64 ∧
    ¬ (mkSubscription connId sid ip).latestEventId < Q := by
  refine ⟨rfl, ?_⟩
  simp only [mkSubscription, MAX_U64, not_lt]
  omega

/-- Witness for subscription_fresh_undeliverable at quadID 5. -/
theorem subscription_fresh_undeliverable_witness :
    (5 : Nat) < 2 ^ 64 ∧
    ¬ (mkSubscription 0 ⟨[1, 97]⟩ []).latestEventId < 5 :=
  ⟨by norm_num,
   (subscription_fresh_undeliverable 0 ⟨[1, 97]⟩ [] 5 (by norm_num)).2⟩

/-- The relay.numThreads block of the configuration file written by
src/deploy.sh. -/
structure RelayNumThreads where
  ingester : Nat
  reqWorker : Nat
  reqMonitor : Nat
  negentropy : Nat

/-- The numeric settings of the configuration file that src/deploy.sh
writes to /etc/strfry.conf (events and relay sections). -/
structure StrfryConfig where
  maxEventSize : Nat
  rejectEventsNewerThanSeconds : Nat
  rejectEventsOlderThanSeconds : Nat
  rejectEphemeralEventsOlderThanSeconds : Nat
  ephemeralEventsLifetimeSeconds : Nat
  maxNumTags : Nat
  maxTagValSize : Nat
  maxWebsocketPayloadSize : Nat
  maxReqFilterSize : Nat
  queryTimesliceBudgetMicroseconds : Nat
  maxFilterLimit : Nat
  maxSubsPerConnection : Nat
  numThreads : RelayNumThreads
  maxSyncEvents : Nat

/-- The default configuration emitted by src/deploy.sh lines 109-261. -/
def deployDefaultConfig : StrfryConfig :=
  { maxEventSize := 65536
    rejectEventsNewerThanSeconds := 900
    rejectEventsOlderThanSeconds := 94608000
    rejectEphemeralEventsOlderThanSeconds := 60
    ephemeralEventsLifetimeSeconds := 300
    maxNumTags := 2000
    maxTagValSize := 1024
    maxWebsocketPayloadSize := 131072
    maxReqFilterSize := 200
    queryTimesliceBudgetMicroseconds := 10000
    maxFilterLimit := 500
    maxSubsPerConnection := 20
    numThreads :=
      { ingester := 3, reqWorker := 3, reqMonitor := 3, negentropy := 2 }
    maxSyncEvents := 1000000 }

/-- Claim C7: the default lifetime after which ephemeral events are
deleted is 300 seconds, and ephemeralEventsLifetimeSeconds is a
configuration setting that can take any value. -/
theorem ephemeral_lifetime_default (n : Nat) :
    deployDefaultConfig.ephemeralEventsLifetimeSeconds = 300 ∧
    ∃ cfg : StrfryConfig, cfg.ephemeralEventsLifetimeSeconds = n :=
  ⟨rfl, ⟨{ deployDefaultConfig with ephemeralEventsLifetimeSeconds := n },
     rfl⟩⟩

/-- Claim C8: the default worker-pool sizes are Ingester 3, ReqWorker 3,
ReqMonitor 3 and Negentropy 2 threads, and each is a configuration
setting that can take any value. -/
theorem worker_pool_defaults (a b c d : Nat) :
    deployDefaultConfig.numThreads.ingester = 3 ∧
    deployDefaultConfig.numThreads.reqWorker = 3 ∧
    deployDefaultConfig.numThreads.reqMonitor = 3 ∧
    deployDefaultConfig.numThreads.negentropy = 2 ∧
    ∃ cfg : StrfryConfig,
      cfg.numThreads.ingester = a ∧ cfg.numThreads.reqWorker = b ∧
      cfg.numThreads.reqMonitor = c ∧ cfg.numThreads.negentropy = d :=
  ⟨rfl, rfl, rfl, rfl,
   ⟨{ deployDefaultConfig with
       numThreads :=
         { ingester := a, reqWorker := b, reqMonitor := c,
           negentropy := d } },
    rfl, rfl, rfl, rfl⟩⟩

/-- Modelled from the spec: the per-connection subscription bookkeeping
lives outside the given sources; the spec says a connection owns its open
subscriptions and that when it attempts to open more than
maxSubsPerConnection, the newest is rejected with a notice. -/
structure ConnState where
  subs : List SubId

/-- Result of an attempt to open a subscription. -/
inductive OpenResult where
  | opened
  | rejectedNotice
  deriving DecidableEq, Repr

/-- Modelled from the spec: opening a subscription on a connection that
already holds maxSubs subscriptions is rejected with a notice and leaves
the connection unchanged; otherwise the subscription is added. -/
def openSub (maxSubs : Nat) (c : ConnState) (s : SubId) :
    ConnState × OpenResult :=
  if maxSubs ≤ c.subs.length then (c, OpenResult.rejectedNotice)
  else ({ subs := s :: c.subs }, OpenResult.opened)

/-- Modelled from the spec: CLOSE removes the named subscription. -/
def closeSub (c : ConnState) (s : SubId) : ConnState :=
  { subs := c.subs.filter (fun t => ! SubId.beq t s) }

/-- A client action on one connection. -/
inductive ConnOp where
  | openOp (s : SubId)
  | closeOp (s : SubId)

/-- One client action applied to the connection state. -/
def connStep (maxSubs : Nat) (c : ConnState) : ConnOp → ConnState
  | ConnOp.openOp s => (openSub maxSubs c s).1
  | ConnOp.closeOp s => closeSub c s

/-- A fresh connection followed by a sequence of REQ/CLOSE actions. -/
def runConn (maxSubs : Nat) (ops : List ConnOp) : ConnState :=
  ops.foldl (connStep maxSubs) ⟨[]⟩

theorem connStep_length_le (maxSubs : Nat) (c : ConnState) (op : ConnOp)
    (h : c.subs.length ≤ maxSubs) :
    (connStep maxSubs c op).subs.length ≤ maxSubs := by
  cases op with
  | openOp s =>
      simp only [connStep, openSub]
      by_cases hc : maxSubs ≤ c.subs.length
      · rw [if_pos hc]
        exact h
      · rw [if_neg hc]
        simp only [List.length_cons]
        omega
  | closeOp s =>
      simp only [connStep, closeSub]
      exact le_trans (List.length_filter_le _ _) h

theorem runConn_aux_length_le (maxSubs : Nat) (ops : List ConnOp) :
    ∀ c : ConnState, c.subs.length ≤ maxSubs →
      (ops.foldl (connStep maxSubs) c).subs.length ≤ maxSubs := by
  induction ops with
  | nil => intro c h; simpa using h
  | cons op rest ih =>
      intro c h
      simpa using ih (connStep maxSubs c op) (connStep_length_le maxSubs c op h)

/-- Claim C9: starting from a fresh connection, at most maxSubs
subscriptions (default maxSubsPerConnection = 20) are ever open, and an
open attempt on a full connection is rejected with a notice leaving the
existing subscriptions unchanged. -/
theorem subscription_cap (maxSubs : Nat) (ops : List ConnOp) :
    deployDefaultConfig.maxSubsPerConnection = 20 ∧
    (runConn maxSubs ops).subs.length ≤ maxSubs ∧
    ∀ (c : ConnState) (s : SubId), maxSubs ≤ c.subs.length →
      openSub maxSubs c s = (c, OpenResult.rejectedNotice) := by
  refine ⟨rfl, ?_, ?_⟩
  · exact runConn_aux_length_le maxSubs ops ⟨[]⟩ (by simp)
  · intro c s h
    simp [openSub, h]

/-- Witness for subscription_cap: a connection holding 20 subscriptions
rejects the 21st. -/
theorem subscription_cap_witness :
    (runConn 20 []).subs.length ≤ 20 ∧
    20 ≤ (ConnState.mk (List.replicate 20 (SubId.mk [1, 97]))).subs.length ∧
    openSub 20 (ConnState.mk (List.replicate 20 (SubId.mk [1, 97])))
        (SubId.mk [1, 98]) =
      (ConnState.mk (List.replicate 20 (SubId.mk [1, 97])),
       OpenResult.rejectedNotice) :=
  ⟨(subscription_cap 20 []).2.1, by simp,
   (subscription_cap 20 []).2.2 _ _ (by simp)⟩

/-- Modelled from the spec: the EventStore state relevant to quadID
allocation. lastQuadID is the highest quadID assigned so far (recomputed
on restart as the maximum in the primary table); storedIds is the byId
index; committedQuadIDs lists the quadIDs of stored events in commit
order. -/
structure EventStoreState where
  lastQuadID : Nat
  storedIds : List Nat
  committedQuadIDs : List Nat

/-- Outcome of EventStore.install restricted to the claim: Duplicate
performs no writes, Stored allocates quadID = lastQuadID + 1. -/
inductive InstallOutcome where
  | stored (quadID : Nat)
  | duplicate
  deriving DecidableEq, Repr

/-- Modelled from the spec: EventStore.install. If byId contains the
event id the outcome is Duplicate with no writes; otherwise
quadID = lastQuadID + 1 is allocated and the event is stored. -/
def install (st : EventStoreState) (evId : Nat) :
    EventStoreState × InstallOutcome :=
  if evId ∈ st.storedIds then (st, InstallOutcome.duplicate)
  else
    ({ lastQuadID := st.lastQuadID + 1,
       storedIds := evId :: st.storedIds,
       committedQuadIDs := st.committedQuadIDs ++ [st.lastQuadID + 1] },
     InstallOutcome.stored (st.lastQuadID + 1))

/-- A sequence of event submissions against an empty store. -/
def runInstalls (evs : List Nat) : EventStoreState :=
  evs.foldl (fun st e => (install st e).1) ⟨0, [], []⟩

/-- The invariant carried through install: committed quadIDs are
strictly increasing and all bounded by lastQuadID. -/
def storeInv (st : EventStoreState) : Prop :=
  List.Pairwise (· < ·) st.committedQuadIDs ∧
  ∀ q ∈ st.committedQuadIDs, q ≤ st.lastQuadID

theorem install_preserves_inv (st : EventStoreState) (evId : Nat)
    (h : storeInv st) : storeInv (install st evId).1 := by
  obtain ⟨hp, hb⟩ := h
  unfold install
  by_cases hc : evId ∈ st.storedIds
  · rw [if_pos hc]
    exact ⟨hp, hb⟩
  · rw [if_neg hc]
    dsimp only
    refine ⟨?_, ?_⟩
    · refine List.pairwise_append.mpr ⟨hp, by simp, ?_⟩
      intro a ha b hbm
      have hb1 : b = st.lastQuadID + 1 := by simpa using hbm
      have := hb a ha
      omega
    · intro q hq
      show q ≤ st.lastQuadID + 1
      rcases List.mem_append.mp hq with hql | hqr
      · have := hb q hql
        omega
      · have : q = st.lastQuadID + 1 := by simpa using hqr
        omega

theorem runInstalls_aux_inv (evs : List Nat) :
    ∀ st : EventStoreState, storeInv st →
      storeInv (evs.foldl (fun st e => (install st e).1) st) := by
  induction evs with
  | nil => intro st h; simpa using h
  | cons e rest ih =>
      intro st h
      simpa using ih (install st e).1 (install_preserves_inv st e h)

/-- Claim C10: across any sequence of submissions, the quadIDs of stored
events, in commit order, are strictly increasing with no ties. -/
theorem quadIDs_strictly_increasing (evs : List Nat) :
    List.Pairwise (· < ·) (runInstalls evs).committedQuadIDs :=
  (runInstalls_aux_inv evs ⟨0, [], []⟩ ⟨by simp, by simp⟩).1

/-- 2^64, the modulus of the uint64_t counters (fetch_add wraps). -/
def U64 : Nat := 2 ^ 64

/-- PrometheusMetrics::LabeledCounter (src/unnamed/part_000): a
std::map from label to a 64-bit counter, modelled as an association list
kept sorted by key exactly as std::map iterates. inc(label, n) adds n to
the existing counter (wrapping at 2^64), or default-constructs the
counter at 0 and adds n when the label is new. -/
def lcInc : List (String × Nat) → String → Nat → List (String × Nat)
  | [], l, n => [(l, n % U64)]
  | (k, v) :: rest, l, n =>
    if l < k then (l, n % U64) :: (k, v) :: rest
    else if l = k then (k, (v + n) % U64) :: rest
    else (k, v) :: lcInc rest l n

/-- Lookup of a label's counter value (Counter::get via map find). -/
def lcGet : List (String × Nat) → String → Option Nat
  | [], _ => none
  | (k, v) :: rest, l => if l = k then some v else lcGet rest l

/-- LabeledCounter::getAll(): copies every (label, counter.get())
pair, in the map's key order. -/
def lcGetAll (c : List (String × Nat)) : List (String × Nat) := c

/-- The labels present in a counter map. -/
def lcKeys (c : List (String × Nat)) : List String := c.map Prod.fst

/-- A fresh LabeledCounter followed by a sequence of inc(label, n)
calls. -/
def lcRun (ops : List (String × Nat)) : List (String × Nat) :=
  ops.foldl (fun c p => lcInc c p.1 p.2) []

/-- The total amount by which a given label was incremented. -/
def sumFor (ops : List (String × Nat)) (l : String) : Nat :=
  ((ops.filter (fun p => p.1 == l)).map Prod.snd).sum

theorem mem_lcKeys_lcInc (c : List (String × Nat)) (l : String) (n : Nat)
    (x : String) : x ∈ lcKeys (lcInc c l n) ↔ x = l ∨ x ∈ lcKeys c := by
  induction c with
  | nil => simp [lcInc, lcKeys]
  | cons p rest ih =>
      obtain ⟨k, v⟩ := p
      simp only [lcInc]
      by_cases h1 : l < k
      · rw [if_pos h1]
        simp [lcKeys]
      · rw [if_neg h1]
        by_cases h2 : l = k
        · rw [if_pos h2]
          subst h2
          simp [lcKeys]
        · rw [if_neg h2]
          simp only [lcKeys, List.map_cons, List.mem_cons] at ih ⊢
          rw [ih]
          tauto

theorem lcGet_eq_none_iff (c : List (String × Nat)) (l : String) :
    lcGet c l = none ↔ l ∉ lcKeys c := by
  induction c with
  | nil => simp [lcGet, lcKeys]
  | cons p rest ih =>
      obtain ⟨k, v⟩ := p
      simp only [lcGet, lcKeys, List.map_cons, List.mem_cons]
      by_cases h : l = k
      · simp [h]
      · simp [h, ih, lcKeys]

theorem lcInc_sorted (c : List (String × Nat)) (l : String) (n : Nat)
    (hs : List.Sorted (· < ·) (lcKeys c)) :
    List.Sorted (· < ·) (lcKeys (lcInc c l n)) := by
  induction c with
  | nil => simp [lcInc, lcKeys]
  | cons p rest ih =>
      obtain ⟨k, v⟩ := p
      simp only [lcKeys, List.map_cons, List.sorted_cons] at hs
      obtain ⟨hk, hrest⟩ := hs
      simp only [lcInc]
      by_cases h1 : l < k
      · rw [if_pos h1]
        simp only [lcKeys, List.map_cons, List.sorted_cons]
        refine ⟨?_, ?_, hrest⟩
        · intro b hb
          rcases List.mem_cons.mp hb with hb | hb
          · rw [hb]; exact h1
          · exact lt_trans h1 (hk b hb)
        · exact hk
      · rw [if_neg h1]
        by_cases h2 : l = k
        · rw [if_pos h2]
          simp only [lcKeys, List.map_cons, List.sorted_cons]
          exact ⟨hk, hrest⟩
        · rw [if_neg h2]
          have hkl : k < l := by
            rcases lt_trichotomy l k with h | h | h
            · exact absurd h h1
            · exact absurd h h2
            · exact h
          simp only [lcKeys, List.map_cons, List.sorted_cons]
          refine ⟨?_, ih hrest⟩
          intro b hb
          rcases (mem_lcKeys_lcInc rest l n b).mp hb with hb | hb
          · rw [hb]; exact hkl
          · exact hk b hb


theorem lcGet_lcInc (c : List (String × Nat)) (l : String) (n : Nat)
    (hs : List.Sorted (· < ·) (lcKeys c)) (x : String) :
    lcGet (lcInc c l n) x =
      if x = l then some (((lcGet c l).getD 0 + n) % U64)
      else lcGet c x := by
  induction c with
  | nil =>
      by_cases h : x = l
      · simp [lcInc, lcGet, h]
      · simp [lcInc, lcGet, h]
  | cons p rest ih =>
      obtain ⟨k, v⟩ := p
      simp only [lcKeys, List.map_cons, List.sorted_cons] at hs
      obtain ⟨hk, hrest⟩ := hs
      simp only [lcInc]
      by_cases h1 : l < k
      · rw [if_pos h1]
        have hlnone : lcGet ((k, v) :: rest) l = none := by
          rw [lcGet_eq_none_iff]
          simp only [lcKeys, List.map_cons, List.mem_cons]
          rintro (hc | hc)
          · exact (ne_of_lt h1) hc
          · exact lt_asymm h1 (hk l hc)
        by_cases hx : x = l
        · rw [if_pos hx, hlnone]
          simp [lcGet, hx]
        · rw [if_neg hx]
          simp [lcGet, hx]
      · rw [if_neg h1]
        by_cases h2 : l = k
        · rw [if_pos h2]
          subst h2
          by_cases hx : x = l
          · rw [if_pos hx]
            simp [lcGet, hx]
          · rw [if_neg hx]
            simp [lcGet, hx]
        · rw [if_neg h2]
          have hkl : k < l := by
            rcases lt_trichotomy l k with h | h | h
            · exact absurd h h1
            · exact absurd h h2
            · exact h
          by_cases hx : x = k
          · have hxl : ¬ x = l := by
              rw [hx]
              exact ne_of_lt hkl
            rw [if_neg hxl]
            simp [lcGet, hx]
          · simp only [lcGet, if_neg hx, if_neg h2]
            exact ih hrest

theorem sumFor_cons (a : String) (n : Nat) (rest : List (String × Nat))
    (l : String) :
    sumFor ((a, n) :: rest) l =
      if a = l then n + sumFor rest l else sumFor rest l := by
  by_cases h : a = l
  · simp [sumFor, List.filter_cons, h]
  · simp [sumFor, List.filter_cons, h]

theorem sumFor_eq_zero (ops : List (String × Nat)) (l : String)
    (h : l ∉ ops.map Prod.fst) : sumFor ops l = 0 := by
  induction ops with
  | nil => rfl
  | cons p rest ih =>
      obtain ⟨a, n⟩ := p
      simp only [List.map_cons, List.mem_cons] at h
      push_neg at h
      rw [sumFor_cons, if_neg (fun hc => h.1 hc.symm)]
      exact ih h.2

theorem lcGet_foldl (ops : List (String × Nat)) :
    ∀ c : List (String × Nat), List.Sorted (· < ·) (lcKeys c) →
    ∀ l : String,
      lcGet (ops.foldl (fun c p => lcInc c p.1 p.2) c) l =
        if l ∈ ops.map Prod.fst then
          some (((lcGet c l).getD 0 + sumFor ops l) % U64)
        else lcGet c l := by
  induction ops with
  | nil =>
      intro c hs l
      simp [sumFor]
  | cons p rest ih =>
      obtain ⟨a, n⟩ := p
      intro c hs l
      simp only [List.foldl_cons]
      rw [ih (lcInc c a n) (lcInc_sorted c a n hs) l]
      rw [lcGet_lcInc c a n hs l]
      rw [sumFor_cons]
      by_cases hal : a = l
      · rw [if_pos hal]
        subst hal
        by_cases hmem : a ∈ List.map Prod.fst rest
        · rw [if_pos hmem]
          have hmem2 : a ∈ List.map Prod.fst ((a, n) :: rest) := by simp
          rw [if_pos hmem2, if_pos rfl]
          simp only [Option.getD_some]
          rw [Nat.mod_add_mod, Nat.add_assoc]
        · rw [if_neg hmem]
          have hmem2 : a ∈ List.map Prod.fst ((a, n) :: rest) := by simp
          rw [if_pos hmem2, if_pos rfl, sumFor_eq_zero rest a hmem,
            Nat.add_zero]
      · rw [if_neg hal]
        have hla : ¬ l = a := fun hc => hal hc.symm
        by_cases hmem : l ∈ List.map Prod.fst rest
        · have hmem2 : l ∈ List.map Prod.fst ((a, n) :: rest) := by
            simp [hmem]
          rw [if_pos hmem, if_pos hmem2, if_neg hla]
        · have hmem2 : l ∉ List.map Prod.fst ((a, n) :: rest) := by
            simp only [List.map_cons, List.mem_cons]
            push_neg
            exact ⟨hla, hmem⟩
          rw [if_neg hmem, if_neg hmem2, if_neg hla]

theorem lcRun_aux_sorted (ops : List (String × Nat)) :
    ∀ c : List (String × Nat), List.Sorted (· < ·) (lcKeys c) →
      List.Sorted (· < ·)
        (lcKeys (ops.foldl (fun c p => lcInc c p.1 p.2) c)) := by
  induction ops with
  | nil => intro c h; simpa using h
  | cons p rest ih =>
      intro c h
      simpa using ih (lcInc c p.1 p.2) (lcInc_sorted c p.1 p.2 h)

/-- Claim C5: for every sequence of inc(label, n) calls on a fresh
LabeledCounter, getAll() has as keys exactly the incremented labels, and
maps each label to the sum of its increments modulo 2^64. -/
theorem labeledCounter_inc_getAll (ops : List (String × Nat)) (l : String) :
    (l ∈ lcKeys (lcGetAll (lcRun ops)) ↔ l ∈ ops.map Prod.fst) ∧
    lcGet (lcGetAll (lcRun ops)) l =
      (if l ∈ ops.map Prod.fst then some (sumFor ops l % U64) else none) := by
  have h := lcGet_foldl ops [] (by simp [lcKeys]) l
  have hget : lcGet (lcGetAll (lcRun ops)) l =
      (if l ∈ ops.map Prod.fst then some (sumFor ops l % U64) else none) := by
    by_cases hm : l ∈ ops.map Prod.fst
    · rw [if_pos hm] at h ⊢
      simpa [lcRun, lcGetAll, lcGet] using h
    · rw [if_neg hm] at h ⊢
      simpa [lcRun, lcGetAll, lcGet] using h
  refine ⟨⟨?_, ?_⟩, hget⟩
  · intro hmem
    by_contra hc
    have h0 : lcGet (lcGetAll (lcRun ops)) l = none := by
      rw [hget, if_neg hc]
    exact (lcGet_eq_none_iff _ l).mp h0 hmem
  · intro hmem
    by_contra hc
    have h0 : lcGet (lcGetAll (lcRun ops)) l = none :=
      (lcGet_eq_none_iff _ l).mpr hc
    rw [hget, if_pos hmem] at h0
    exact Option.some_ne_none _ h0

/-- class PrometheusMetrics (src/unnamed/part_000): three labelled
counter families. -/
structure PrometheusMetrics where
  nostrClientMessages : List (String × Nat)
  nostrRelayMessages : List (String × Nat)
  nostrEventsByKind : List (String × Nat)

/-- One increment through the convenience macros PROM_INC_CLIENT_MSG,
PROM_INC_RELAY_MSG and PROM_INC_EVENT_KIND. -/
inductive MetricOp where
  | clientMsg (verb : String) (n : Nat)
  | relayMsg (verb : String) (n : Nat)
  | eventKind (kind : String) (n : Nat)

/-- Apply one increment to the metrics state. -/
def metricsStep (m : PrometheusMetrics) : MetricOp → PrometheusMetrics
  | MetricOp.clientMsg v n =>
      { m with nostrClientMessages := lcInc m.nostrClientMessages v n }
  | MetricOp.relayMsg v n =>
      { m with nostrRelayMessages := lcInc m.nostrRelayMessages v n }
  | MetricOp.eventKind k n =>
      { m with nostrEventsByKind := lcInc m.nostrEventsByKind k n }

/-- The metrics state at construction: all three families empty. -/
def initialMetrics : PrometheusMetrics := ⟨[], [], []⟩

/-- The metrics state after a sequence of increments. -/
def runMetrics (ops : List MetricOp) : PrometheusMetrics :=
  ops.foldl metricsStep initialMetrics

/-- Concatenation of emitted fragments (the ostringstream). -/
def emitAll : List String → String
  | [] => ""
  | s :: rest => s ++ emitAll rest

/-- One sample line (without the trailing newline):
name{label="key"} value. -/
def sampleLine (nm lab : String) (p : String × Nat) : String :=
  nm ++ "\x7b" ++ lab ++ "=\"" ++ p.1 ++ "\"\x7d " ++ toString p.2

/-- PrometheusMetrics::render(): for each family, the HELP and TYPE
header lines, then one sample line per entry of getAll(), each statement
out << ... << "\n" contributing its fragment and newline. -/
def PrometheusMetrics.render (m : PrometheusMetrics) : String :=
  "# HELP nostr_client_messages_total Total number of Nostr client messages by verb\n" ++
  "# TYPE nostr_client_messages_total counter\n" ++
  emitAll ((lcGetAll m.nostrClientMessages).map (fun p =>
    sampleLine "nostr_client_messages_total" "verb" p ++ "\n")) ++
  "# HELP nostr_relay_messages_total Total number of Nostr relay messages by verb\n" ++
  "# TYPE nostr_relay_messages_total counter\n" ++
  emitAll ((lcGetAll m.nostrRelayMessages).map (fun p =>
    sampleLine "nostr_relay_messages_total" "verb" p ++ "\n")) ++
  "# HELP nostr_events_total Total number of Nostr events by kind\n" ++
  "# TYPE nostr_events_total counter\n" ++
  emitAll ((lcGetAll m.nostrEventsByKind).map (fun p =>
    sampleLine "nostr_events_total" "kind" p ++ "\n"))

/-- The nostr_client_messages_total family as a list of lines: HELP and
TYPE headers, then one sample line per recorded label. -/
def clientFamilyLines (c : List (String × Nat)) : List String :=
  "# HELP nostr_client_messages_total Total number of Nostr client messages by verb" ::
  "# TYPE nostr_client_messages_total counter" ::
  c.map (sampleLine "nostr_client_messages_total" "verb")

/-- The nostr_relay_messages_total family as a list of lines. -/
def relayFamilyLines (c : List (String × Nat)) : List String :=
  "# HELP nostr_relay_messages_total Total number of Nostr relay messages by verb" ::
  "# TYPE nostr_relay_messages_total counter" ::
  c.map (sampleLine "nostr_relay_messages_total" "verb")

/-- The nostr_events_total family as a list of lines. -/
def eventsFamilyLines (c : List (String × Nat)) : List String :=
  "# HELP nostr_events_total Total number of Nostr events by kind" ::
  "# TYPE nostr_events_total counter" ::
  c.map (sampleLine "nostr_events_total" "kind")

theorem strAppend_assoc (a b c : String) : a ++ b ++ c = a ++ (b ++ c) := by
  apply String.ext
  simp [String.data_append, List.append_assoc]

theorem emitAll_append (a b : List String) :
    emitAll (a ++ b) = emitAll a ++ emitAll b := by
  induction a with
  | nil => simp [emitAll, String.empty_append]
  | cons s rest ih => simp [emitAll, ih, strAppend_assoc]

theorem runMetrics_aux_sorted (ops : List MetricOp) :
    ∀ m : PrometheusMetrics,
      List.Sorted (· < ·) (lcKeys m.nostrClientMessages) →
      List.Sorted (· < ·) (lcKeys m.nostrRelayMessages) →
      List.Sorted (· < ·) (lcKeys m.nostrEventsByKind) →
      List.Sorted (· < ·)
        (lcKeys (ops.foldl metricsStep m).nostrClientMessages) ∧
      List.Sorted (· < ·)
        (lcKeys (ops.foldl metricsStep m).nostrRelayMessages) ∧
      List.Sorted (· < ·)
        (lcKeys (ops.foldl metricsStep m).nostrEventsByKind) := by
  induction ops with
  | nil =>
      intro m h1 h2 h3
      exact ⟨h1, h2, h3⟩
  | cons op rest ih =>
      intro m h1 h2 h3
      simp only [List.foldl_cons]
      cases op with
      | clientMsg v n => exact ih _ (lcInc_sorted _ v n h1) h2 h3
      | relayMsg v n => exact ih _ h1 (lcInc_sorted _ v n h2) h3
      | eventKind k n => exact ih _ h1 h2 (lcInc_sorted _ k n h3)

/-- Claim C6: render() is a pure function of the counter state whose
output is, for each of the three metric families, the HELP and TYPE
header lines followed by exactly one sample line per recorded label,
with labels in ascending lexicographic order; no counter is modified
(render takes the state and returns only a string). -/
theorem metrics_render_structure (ops : List MetricOp) :
    (runMetrics ops).render =
      emitAll
        ((clientFamilyLines (lcGetAll (runMetrics ops).nostrClientMessages) ++
          relayFamilyLines (lcGetAll (runMetrics ops).nostrRelayMessages) ++
          eventsFamilyLines
            (lcGetAll (runMetrics ops).nostrEventsByKind)).map
          (fun s => s ++ "\n")) ∧
    (∀ c : List (String × Nat),
      (clientFamilyLines c).length = 2 + c.length ∧
      (relayFamilyLines c).length = 2 + c.length ∧
      (eventsFamilyLines c).length = 2 + c.length) ∧
    List.Sorted (· < ·)
      (lcKeys (lcGetAll (runMetrics ops).nostrClientMessages)) ∧
    List.Sorted (· < ·)
      (lcKeys (lcGetAll (runMetrics ops).nostrRelayMessages)) ∧
    List.Sorted (· < ·)
      (lcKeys (lcGetAll (runMetrics ops).nostrEventsByKind)) := by
  obtain ⟨hs1, hs2, hs3⟩ :=
    runMetrics_aux_sorted ops initialMetrics (by simp [lcKeys, initialMetrics])
      (by simp [lcKeys, initialMetrics]) (by simp [lcKeys, initialMetrics])
  refine ⟨?_, ?_, hs1, hs2, hs3⟩
  · rw [List.map_append, List.map_append, emitAll_append, emitAll_append]
    simp only [clientFamilyLines, relayFamilyLines, eventsFamilyLines,
      List.map_cons, emitAll, List.map_map]
    simp only [PrometheusMetrics.render, Function.comp_def]
    have e1 : ("# HELP nostr_client_messages_total Total number of Nostr client messages by verb" ++ "\n" : String) =
        "# HELP nostr_client_messages_total Total number of Nostr client messages by verb\n" := rfl
    have e2 : ("# TYPE nostr_client_messages_total counter" ++ "\n" : String) =
        "# TYPE nostr_client_messages_total counter\n" := rfl
    have e3 : ("# HELP nostr_relay_messages_total Total number of Nostr relay messages by verb" ++ "\n" : String) =
        "# HELP nostr_relay_messages_total Total number of Nostr relay messages by verb\n" := rfl
    have e4 : ("# TYPE nostr_relay_messages_total counter" ++ "\n" : String) =
        "# TYPE nostr_relay_messages_total counter\n" := rfl
    have e5 : ("# HELP nostr_events_total Total number of Nostr events by kind" ++ "\n" : String) =
        "# HELP nostr_events_total Total number of Nostr events by kind\n" := rfl
    have e6 : ("# TYPE nostr_events_total counter" ++ "\n" : String) =
        "# TYPE nostr_events_total counter\n" := rfl
    rw [e1, e2, e3, e4, e5, e6]
    simp only [strAppend_assoc]
  · intro c
    refine ⟨?_, ?_, ?_⟩
    · simp [clientFamilyLines]
      omega
    · simp [relayFamilyLines]
      omega
    · simp [eventsFamilyLines]
      omega
